import Mathlib

/-!
Verification of the style-resolution module of this repository
(`compileStyleValue`, `getInlineStyles`, `addSaveProps`, and the cascading
style-merge performed inside `withBlockControls`, called
`computeEffectiveStyle` by the specification).

Style layers are JSON-like trees: string leaves and string-keyed objects.
JavaScript objects are modelled as ordered association lists (`JObj`); the
list order stands in for JavaScript object key-insertion order, which is
exactly the order `lodash.reduce` and object spread iterate in.
-/

mutual
inductive JVal : Type where
  | str : String → JVal
  | obj : JObj → JVal
inductive JObj : Type where
  | nil : JObj
  | cons : String → JVal → JObj → JObj
end

mutual
def decEqJVal : (a b : JVal) → Decidable (a = b)
  | .str x, .str y =>
      match String.decEq x y with
      | isTrue h => isTrue (by rw [h])
      | isFalse h => isFalse (by intro hh; cases hh; exact h rfl)
  | .str _, .obj _ => isFalse (by intro h; cases h)
  | .obj _, .str _ => isFalse (by intro h; cases h)
  | .obj x, .obj y =>
      match decEqJObj x y with
      | isTrue h => isTrue (by rw [h])
      | isFalse h => isFalse (by intro hh; cases hh; exact h rfl)

def decEqJObj : (a b : JObj) → Decidable (a = b)
  | .nil, .nil => isTrue rfl
  | .nil, .cons _ _ _ => isFalse (by intro h; cases h)
  | .cons _ _ _, .nil => isFalse (by intro h; cases h)
  | .cons k v r, .cons k' v' r' =>
      match String.decEq k k', decEqJVal v v', decEqJObj r r' with
      | isTrue h1, isTrue h2, isTrue h3 => isTrue (by rw [h1, h2, h3])
      | isFalse h1, _, _ => isFalse (by intro hh; cases hh; exact h1 rfl)
      | _, isFalse h2, _ => isFalse (by intro hh; cases hh; exact h2 rfl)
      | _, _, isFalse h3 => isFalse (by intro hh; cases hh; exact h3 rfl)
end

instance : DecidableEq JVal := decEqJVal

instance : DecidableEq JObj := decEqJObj

/-- Property lookup on a JavaScript object (first entry with the given key). -/
def lookupJ : JObj → String → Option JVal
  | .nil, _ => none
  | .cons k' v rest, k => if k' = k then some v else lookupJ rest k

def appendJ : JObj → JObj → JObj
  | .nil, o => o
  | .cons k v rest, o => .cons k v (appendJ rest o)

/-- Entries of the second object whose key does not occur in the first object
(the keys a merge or spread appends after the destination's own keys). -/
def filterNewJ (dl : JObj) : JObj → JObj
  | .nil => .nil
  | .cons k v rest =>
      match lookupJ dl k with
      | some _ => filterNewJ dl rest
      | none => .cons k v (filterNewJ dl rest)

/-- JavaScript property assignment `o[k] = v`: replaces the value in place when
the key exists, appends the new key otherwise. -/
def setKeyJ : JObj → String → JVal → JObj
  | .nil, k, v => .cons k v .nil
  | .cons k' v' rest, k, v =>
      if k' = k then .cons k' v rest else .cons k' v' (setKeyJ rest k v)

/-- lodash `get`/`has` with an array path: walk the object along the keys.
`has` is `(getPath v p).isSome` and `get` is the carried value. -/
def getPath : JVal → List String → Option JVal
  | v, [] => some v
  | .obj o, k :: rest =>
      match lookupJ o k with
      | some v => getPath v rest
      | none => none
  | .str _, _ :: _ => none

/-!
lodash `merge(destination, source)`: keys already present in the destination
keep their positions, with plain-object values merged recursively and any
other value overridden by the source; keys only in the source are appended
in source order. `merge` with several sources folds this pairwise, and the
code always passes a fresh `\x7b\x7d` as destination.
-/

mutual
def mergeVal : JVal → JVal → JVal
  | .obj dl, .obj sl => .obj (appendJ (mergeEntries dl sl) (filterNewJ dl sl))
  | _, s => s

def mergeEntries : JObj → JObj → JObj
  | .nil, _ => .nil
  | .cons k dv dl, sl =>
      .cons k
        (match lookupJ sl k with
          | some sv => mergeVal dv sv
          | none => dv)
        (mergeEntries dl sl)
end

/-- JavaScript string `startsWith` (also lodash `startsWith`) on code points. -/
def strStartsWith (s pre : String) : Bool := pre.data.isPrefixOf s.data

/-- JavaScript `String.prototype.split` with a single-character separator. -/
def splitOnChar (sep : Char) : List Char → List (List Char)
  | [] => [[]]
  | c :: rest =>
      match splitOnChar sep rest with
      | [] => [[c]]
      | g :: gs => if c = sep then [] :: g :: gs else (c :: g) :: gs

/-- JavaScript `Array.prototype.join` with a string separator. -/
def joinWith (sep : List Char) : List (List Char) → List Char
  | [] => []
  | [g] => g
  | g :: gs => g ++ sep ++ joinWith sep gs

/-- Source constant `VARIABLE_REFERENCE_PREFIX = 'var:'` (renamed here). -/
def variableReferenceMarker : String := "var:"

/-- Source constant `VARIABLE_PATH_SEPARATOR_TOKEN_ATTRIBUTE = '|'`
(a one-character string, modelled as the character). -/
def variablePathSeparatorTokenAttribute : Char := '|'

/-- Source constant `VARIABLE_PATH_SEPARATOR_TOKEN_STYLE = '--'`. -/
def variablePathSeparatorTokenStyle : String := "--"

/-- `compileStyleValue` (the specification's `resolveVariable`): a value
starting with the reference marker is sliced past the marker, split on the
attribute separator, rejoined with the style separator and wrapped in
`var(--wp--...)`; every other value passes through unchanged. -/
def compileStyleValue (uncompiledValue : String) : String :=
  if strStartsWith uncompiledValue variableReferenceMarker then
    String.mk
      ("var(--wp--".data ++
        joinWith variablePathSeparatorTokenStyle.data
          (splitOnChar variablePathSeparatorTokenAttribute
            (uncompiledValue.data.drop variableReferenceMarker.data.length)) ++
        ")".data)
  else uncompiledValue

/-- `compileStyleValue` lifted to JSON values. On a non-string value the
source's lodash `startsWith` coerces the value with `toString`; no object
coerces to a string beginning with `var:` (objects stringify as
`[object Object]`), so on those values the function returns its argument
unchanged, which is what this lift does. -/
def compileValueJ : JVal → JVal
  | .str s => .str (compileStyleValue s)
  | v => v

/-- The fixed output-key to semantic-path table of `getInlineStyles`. -/
def mappings : List (String × List String) :=
  [("lineHeight", ["typography", "lineHeight"]),
   ("fontSize", ["typography", "fontSize"]),
   ("background", ["color", "gradient"]),
   ("backgroundColor", ["color", "background"]),
   ("color", ["color", "text"]),
   ("--wp--color--link", ["color", "link"])]

/-- Body of the `forEach` in `getInlineStyles`: if the semantic path exists in
the input, assign the compiled value under the output key. -/
def inlineStyleStep (styles : JVal) (output : JObj) (m : String × List String) : JObj :=
  match getPath styles m.2 with
  | some value => setKeyJ output m.1 (compileValueJ value)
  | none => output

/-- `getInlineStyles` (the specification's `computeInlineStyles`). -/
def getInlineStyles (styles : JVal) : JObj :=
  mappings.foldl (inlineStyleStep styles) JObj.nil

structure BlockType where
  supports : List String

/-- Modelled from the spec: `hasBlockSupport` comes from the host framework
(`@wordpress/blocks`), outside this excerpt; modelled as membership of the
support key in the block type's declared support list. Every claim proved
here depends only on the boolean outcome, not on this representation. -/
def hasBlockSupport (blockType : BlockType) (key : String) : Bool :=
  blockType.supports.contains key

/-- Modelled from the spec: the three support-key constants are imported from
sibling modules (./color, ./line-height, ./font-size) not included in this
excerpt; their concrete string values do not affect any claim proved here. -/
def COLOR_SUPPORT_KEY : String := "color"

def LINE_HEIGHT_SUPPORT_KEY : String := "lineHeight"

def FONT_SIZE_SUPPORT_KEY : String := "fontSize"

def styleSupportKeys : List String :=
  [COLOR_SUPPORT_KEY, LINE_HEIGHT_SUPPORT_KEY, FONT_SIZE_SUPPORT_KEY]

def hasStyleSupport (blockType : BlockType) : Bool :=
  styleSupportKeys.any (fun key => hasBlockSupport blockType key)

/-- JavaScript object spread of two objects: the first object's keys in their
order (values overridden by the second object where present), then the second
object's new keys in their order. -/
def overrideEntries : JObj → JObj → JObj
  | .nil, _ => .nil
  | .cons k v rest, b => .cons k ((lookupJ b k).getD v) (overrideEntries rest b)

def spreadPair (a b : JObj) : JObj := appendJ (overrideEntries a b) (filterNewJ a b)

/-- `addSaveProps`: with style support, sets `props.style` to the spread of the
computed inline styles followed by the incoming `props.style`; without style
support, returns `props` unchanged. An absent `attributes.style` falls back to
the empty object (the source's default parameter), and an absent
`props.style` spreads as nothing. -/
def addSaveProps (props : JObj) (blockType : BlockType) (attributes : JObj) : JObj :=
  if !hasStyleSupport blockType then props
  else
    let style := (lookupJ attributes "style").getD (JVal.obj .nil)
    let propsStyle :=
      match lookupJ props "style" with
      | some (JVal.obj o) => o
      | _ => JObj.nil
    setKeyJ props "style" (JVal.obj (spreadPair (getInlineStyles style) propsStyle))

/-- Block attributes, as read by the selector-map predicates (which only
destructure the numeric `level` attribute). -/
abbrev Attrs := List (String × Nat)

/-- One selector-map predicate of the source's `selectorMapping` table:
`level === n`, with an absent `level` attribute comparing unequal. -/
def levelIs (n : Nat) (attrs : Attrs) : Bool :=
  attrs.lookup "level" == some n

/-- The module-level `selectorMapping` table: predicate functions keyed by
selector string; lookup of any other selector yields `none` (JavaScript
`undefined`). -/
def selectorMapping (selector : String) : Option (Attrs → Bool) :=
  if selector = "core/heading/h1" then some (levelIs 1)
  else if selector = "core/heading/h2" then some (levelIs 2)
  else if selector = "core/heading/h3" then some (levelIs 3)
  else if selector = "core/heading/h4" then some (levelIs 4)
  else if selector = "core/heading/h5" then some (levelIs 5)
  else if selector = "core/heading/h6" then some (levelIs 6)
  else none

/-- One entry of the `__experimentalGlobalStyles` settings object; the code
reads its `styles` property. -/
structure GlobalStyleEntry where
  styles : JVal

abbrev GlobalStylesMap := List (String × GlobalStyleEntry)

/-- The lodash `reduce` inside `withBlockControls` collecting the styles of
every selector-map entry matching the block: an entry matches when its
selector equals the block name, or when the selector starts with the block
name and the predicate `selectorMapping[selector]` accepts the attributes.
When the selector extends the block name but `selectorMapping` has no entry
for it, the JavaScript call `selectorMapping[selector](props.attributes)`
throws a TypeError, modelled as the `Except.error` case. -/
def selectorStep (blockName : String) (attrs : Attrs) (accumulator : JVal)
    (entry : String × GlobalStyleEntry) : Except String JVal :=
  if entry.1 = blockName then
    Except.ok (mergeVal accumulator entry.2.styles)
  else if strStartsWith entry.1 blockName then
    match selectorMapping entry.1 with
    | some pred =>
        if pred attrs then Except.ok (mergeVal accumulator entry.2.styles)
        else Except.ok accumulator
    | none => Except.error "TypeError: selectorMapping is not a function at the selector"
  else Except.ok accumulator

def globalBlockSpecificStyles (blockName : String) (attrs : Attrs)
    (gs : GlobalStylesMap) : Except String JVal :=
  gs.foldlM (selectorStep blockName attrs) (JVal.obj .nil)

/-- The merge inside `withBlockControls` (the specification's
`computeEffectiveStyle`): `merge` of a fresh object with, in ascending
precedence, the root global styles (`__experimentalGlobalStyles?.global?.styles`,
falling back to the empty object), the ancestor context (the
`GlobalStylesContext` value, empty at the root), the block-specific styles
collected by the reduce above, and the block's own local `style` attribute. -/
def computeEffectiveStyle (blockName : String) (attrs : Attrs)
    (localStyle : Option JVal) (gs : GlobalStylesMap)
    (ancestorContext : Option JVal) : Except String JVal :=
  match globalBlockSpecificStyles blockName attrs gs with
  | .error e => .error e
  | .ok globalBlockSpecific =>
      let globalLayer :=
        match gs.lookup "global" with
        | some entry => entry.styles
        | none => JVal.obj .nil
      .ok (mergeVal
            (mergeVal
              (mergeVal
                (mergeVal (JVal.obj .nil) globalLayer)
                (ancestorContext.getD (JVal.obj .nil)))
              globalBlockSpecific)
            (localStyle.getD (JVal.obj .nil)))

/-- A one-key layer holding one string leaf under a nested key, the shape of
the specification's examples. -/
def nestedLayer (parentKey leafKey value : String) : JVal :=
  .obj (.cons parentKey (.obj (.cons leafKey (.str value) .nil)) .nil)

/-- The layer shape of the precedence example in the specification. -/
def colorTextLayer (value : String) : JVal := nestedLayer "color" "text" value

/-! ### Lookup lemmas for the object operations -/

/-- Structural induction over `JObj` alone (the mutual recursor of
`JVal`/`JObj` has two motives, so the `induction` tactic needs this
single-motive principle). -/
theorem JObj.inductionOn {motive : JObj → Prop} (nil : motive .nil)
    (cons : ∀ (k : String) (v : JVal) (rest : JObj), motive rest → motive (.cons k v rest)) :
    ∀ o, motive o
  | .nil => nil
  | .cons k v rest => cons k v rest (JObj.inductionOn nil cons rest)

@[simp]
theorem lookupJ_nil (k : String) : lookupJ .nil k = none := rfl

theorem lookupJ_appendJ (a b : JObj) (k : String) :
    lookupJ (appendJ a b) k =
      match lookupJ a k with
      | some v => some v
      | none => lookupJ b k := by
  induction a using JObj.inductionOn with
  | nil => simp [appendJ, lookupJ]
  | cons k' v rest ih =>
      by_cases h : k' = k
      · simp [appendJ, lookupJ, h]
      · simp [appendJ, lookupJ, h, ih]

theorem appendJ_nil_right (a : JObj) : appendJ a .nil = a := by
  induction a using JObj.inductionOn with
  | nil => rfl
  | cons k v rest ih => simp [appendJ, ih]

theorem lookupJ_mergeEntries (dl sl : JObj) (k : String) :
    lookupJ (mergeEntries dl sl) k =
      match lookupJ dl k with
      | some dv =>
          some (match lookupJ sl k with
                | some sv => mergeVal dv sv
                | none => dv)
      | none => none := by
  induction dl using JObj.inductionOn with
  | nil => simp [mergeEntries, lookupJ]
  | cons k' dv rest ih =>
      by_cases h : k' = k
      · subst h
        simp [mergeEntries, lookupJ]
      · simp [mergeEntries, lookupJ, h, ih]

theorem lookupJ_filterNewJ (dl sl : JObj) (k : String) :
    lookupJ (filterNewJ dl sl) k =
      match lookupJ dl k with
      | some _ => none
      | none => lookupJ sl k := by
  induction sl using JObj.inductionOn with
  | nil =>
      cases h : lookupJ dl k <;> simp [filterNewJ, lookupJ]
  | cons k' v rest ih =>
      by_cases hk : k' = k
      · subst hk
        cases h : lookupJ dl k' with
        | some dv => simp [filterNewJ, lookupJ, h, ih]
        | none => simp [filterNewJ, lookupJ, h, ih]
      · cases h : lookupJ dl k' with
        | some dv => simp [filterNewJ, lookupJ, h, hk, ih]
        | none => simp [filterNewJ, lookupJ, h, hk, ih]

theorem filterNewJ_nil_left (sl : JObj) : filterNewJ .nil sl = sl := by
  induction sl using JObj.inductionOn with
  | nil => rfl
  | cons k v rest ih => simp [filterNewJ, lookupJ, ih]

theorem mergeEntries_nil_right (dl : JObj) : mergeEntries dl .nil = dl := by
  induction dl using JObj.inductionOn with
  | nil => rfl
  | cons k dv rest ih => simp [mergeEntries, lookupJ, ih]

/-- Merging onto a fresh empty object returns the source unchanged. -/
theorem mergeVal_nil_left (s : JVal) : mergeVal (.obj .nil) s = s := by
  cases s with
  | str x => rfl
  | obj sl => simp [mergeVal, mergeEntries, appendJ, filterNewJ_nil_left]

/-- Merging the empty object into an object destination changes nothing. -/
theorem mergeVal_obj_nil_right (dl : JObj) :
    mergeVal (.obj dl) (.obj .nil) = .obj dl := by
  simp [mergeVal, mergeEntries_nil_right, filterNewJ, appendJ_nil_right]

theorem lookupJ_setKeyJ (o : JObj) (k : String) (v : JVal) (k' : String) :
    lookupJ (setKeyJ o k v) k' = if k = k' then some v else lookupJ o k' := by
  induction o using JObj.inductionOn with
  | nil => simp [setKeyJ, lookupJ]
  | cons k0 v0 rest ih =>
      by_cases h0 : k0 = k
      · subst h0
        by_cases h1 : k0 = k'
        · subst h1
          simp [setKeyJ, lookupJ]
        · simp [setKeyJ, lookupJ, h1]
      · by_cases h1 : k0 = k'
        · subst h1
          have : ¬ k = k0 := fun h => h0 h.symm
          simp [setKeyJ, lookupJ, h0, this]
        · simp [setKeyJ, lookupJ, h0, h1, ih]

theorem lookupJ_overrideEntries (a b : JObj) (k : String) :
    lookupJ (overrideEntries a b) k =
      (lookupJ a k).map (fun v => (lookupJ b k).getD v) := by
  induction a using JObj.inductionOn with
  | nil => simp [overrideEntries, lookupJ]
  | cons k' v rest ih =>
      by_cases h : k' = k
      · subst h
        simp [overrideEntries, lookupJ]
      · simp [overrideEntries, lookupJ, h, ih]

/-- Lookup in a two-object spread: the second object wins on shared keys. -/
theorem lookupJ_spreadPair (a b : JObj) (k : String) :
    lookupJ (spreadPair a b) k =
      match lookupJ b k with
      | some v => some v
      | none => lookupJ a k := by
  rw [spreadPair, lookupJ_appendJ, lookupJ_overrideEntries, lookupJ_filterNewJ]
  cases ha : lookupJ a k <;> cases hb : lookupJ b k <;> simp

/-! ### Merge and fold lemmas -/

/-- A string leaf the source layer defines at some path survives a merge in
which that layer is the (higher-precedence) source argument, whatever the
destination holds there. -/
theorem getPath_mergeVal_right (p : List String) :
    ∀ (d s : JVal) (v : String),
      getPath s p = some (.str v) → getPath (mergeVal d s) p = some (.str v) := by
  induction p with
  | nil =>
      intro d s v h
      simp [getPath] at h
      subst h
      cases d <;> simp [mergeVal, getPath]
  | cons k rest ih =>
      intro d s v h
      cases s with
      | str x => simp [getPath] at h
      | obj sl =>
          simp only [getPath] at h
          cases hl : lookupJ sl k with
          | none => rw [hl] at h; simp at h
          | some sv =>
              rw [hl] at h
              cases d with
              | str x => simpa [mergeVal, getPath, hl] using h
              | obj dl =>
                  simp only [mergeVal, getPath, lookupJ_appendJ, lookupJ_mergeEntries,
                    lookupJ_filterNewJ, hl]
                  cases hd : lookupJ dl k with
                  | some dv => exact ih dv sv v h
                  | none => exact h

@[simp]
theorem exceptOkBind {ε α β : Type} (a : α) (f : α → Except ε β) :
    (Except.ok a >>= f : Except ε β) = f a := rfl

theorem strStartsWith_self (s : String) : strStartsWith s s = true := by
  unfold strStartsWith
  induction s.data with
  | nil => rfl
  | cons c cs ih => simp [List.isPrefixOf, ih]

/-- The selector fold never fails when every selector that strictly extends
the block name has a predicate in `selectorMapping`. -/
theorem foldlM_selectorStep_ok (blockName : String) (attrs : Attrs) :
    ∀ (gs : GlobalStylesMap) (acc : JVal),
      (∀ e ∈ gs, e.1 ≠ blockName → strStartsWith e.1 blockName = true →
        (selectorMapping e.1).isSome) →
      ∃ o, gs.foldlM (selectorStep blockName attrs) acc = Except.ok o := by
  intro gs
  induction gs with
  | nil => intro acc _; exact ⟨acc, rfl⟩
  | cons e rest ih =>
      intro acc h
      have hrest : ∀ e' ∈ rest, e'.1 ≠ blockName → strStartsWith e'.1 blockName = true →
          (selectorMapping e'.1).isSome := fun e' he' => h e' (List.mem_cons_of_mem e he')
      have hstep : ∃ acc', selectorStep blockName attrs acc e = Except.ok acc' := by
        unfold selectorStep
        by_cases h1 : e.1 = blockName
        · exact ⟨_, by rw [if_pos h1]⟩
        · by_cases h2 : strStartsWith e.1 blockName = true
          · have := h e (List.mem_cons_self e rest) h1 h2
            cases hsel : selectorMapping e.1 with
            | none => rw [hsel] at this; simp at this
            | some pred =>
                by_cases h3 : pred attrs
                · exact ⟨mergeVal acc e.2.styles, by rw [if_neg h1, if_pos h2]; simp [h3]⟩
                · exact ⟨acc, by rw [if_neg h1, if_pos h2]; simp [h3]⟩
          · exact ⟨acc, by rw [if_neg h1, if_neg h2]⟩
      obtain ⟨acc', hacc'⟩ := hstep
      obtain ⟨o, ho⟩ := ih acc' hrest
      exact ⟨o, by simp [List.foldlM, hacc', ho]⟩

theorem lookupJ_inlineStyleStep_ne (styles : JVal) (o : JObj) (m : String × List String)
    (k : String) (h : m.1 ≠ k) :
    lookupJ (inlineStyleStep styles o m) k = lookupJ o k := by
  unfold inlineStyleStep
  cases getPath styles m.2 <;> simp [lookupJ_setKeyJ, h]

theorem lookupJ_inlineStyleStep_eq (styles : JVal) (o : JObj) (m : String × List String) :
    lookupJ (inlineStyleStep styles o m) m.1 =
      match getPath styles m.2 with
      | some v => some (compileValueJ v)
      | none => lookupJ o m.1 := by
  unfold inlineStyleStep
  cases getPath styles m.2 <;> simp [lookupJ_setKeyJ]

/-- What a lookup sees after folding `inlineStyleStep` over a mapping table
with pairwise-distinct output keys. -/
theorem lookupJ_foldl_inlineStyleStep (styles : JVal) :
    ∀ (ms : List (String × List String)) (acc : JObj) (k : String),
      (ms.map Prod.fst).Nodup →
      lookupJ (ms.foldl (inlineStyleStep styles) acc) k =
        match ms.find? (fun m => m.1 == k) with
        | some m =>
            match getPath styles m.2 with
            | some v => some (compileValueJ v)
            | none => lookupJ acc k
        | none => lookupJ acc k := by
  intro ms
  induction ms with
  | nil => intro acc k _; simp
  | cons m rest ih =>
      intro acc k hnd
      rw [List.map_cons, List.nodup_cons] at hnd
      obtain ⟨hm, hrest⟩ := hnd
      rw [List.foldl_cons]
      by_cases hk : m.1 = k
      · have hfind : rest.find? (fun m' => m'.1 == k) = none := by
          rw [List.find?_eq_none]
          intro x hx
          simp only [beq_iff_eq]
          intro hxk
          refine hm ?_
          rw [hk, ← hxk]
          exact List.mem_map_of_mem Prod.fst hx
        rw [ih (inlineStyleStep styles acc m) k hrest, hfind,
          List.find?_cons_of_pos _ (by simp [hk]), ← hk, lookupJ_inlineStyleStep_eq]
      · rw [ih (inlineStyleStep styles acc m) k hrest,
          lookupJ_inlineStyleStep_ne styles acc m k hk,
          List.find?_cons_of_neg _ (by simp [hk])]

/-! ### Claims -/

/-- Claim C2: for every string starting with the reserved marker `var:`,
`compileStyleValue` (the specification's `resolveVariable`) strips the
marker, splits the remainder on `|`, rejoins the segments with `--` and
wraps the result as `var(--wp--...)`; in particular
`var:typography|fontSize` compiles to `var(--wp--typography--fontSize)`,
and the degenerate token `var:` compiles to the malformed-but-emitted
`var(--wp--)` without any validation or rejection. -/
theorem compileStyleValue_variable_spec :
    (∀ s : String, strStartsWith s variableReferenceMarker = true →
      compileStyleValue s =
        String.mk
          ("var(--wp--".data ++
            joinWith variablePathSeparatorTokenStyle.data
              (splitOnChar variablePathSeparatorTokenAttribute
                (s.data.drop variableReferenceMarker.data.length)) ++
            ")".data)) ∧
    compileStyleValue "var:typography|fontSize" = "var(--wp--typography--fontSize)" ∧
    compileStyleValue "var:" = "var(--wp--)" := by
  refine ⟨?_, by decide, by decide⟩
  intro s h
  rw [compileStyleValue, if_pos h]

/-- Witness for C2 at the reference token `var:a|b`. -/
theorem compileStyleValue_variable_spec_witness :
    strStartsWith "var:a|b" variableReferenceMarker = true ∧
    compileStyleValue "var:a|b" = "var(--wp--a--b)" := by
  refine ⟨by decide, ?_⟩
  rw [compileStyleValue_variable_spec.1 "var:a|b" (by decide)]
  decide

/-- Claim C3: on every string that does not start with the marker `var:`,
`compileStyleValue` (the specification's `resolveVariable`) is the
identity. -/
theorem compileStyleValue_passthrough (s : String)
    (h : strStartsWith s variableReferenceMarker = false) :
    compileStyleValue s = s := by
  simp [compileStyleValue, h]

/-- Witness for C3 at the literal value `red`. -/
theorem compileStyleValue_passthrough_witness :
    strStartsWith "red" variableReferenceMarker = false ∧
    compileStyleValue "red" = "red" :=
  ⟨by decide, compileStyleValue_passthrough "red" (by decide)⟩

/-- Claim C4: `getInlineStyles` emits, for each entry of its fixed table, the
output key bound to the compiled value at the semantic path exactly when
that path exists in the input layer (an absent path produces no entry at
all), and emits no key outside the table. -/
theorem getInlineStyles_spec (styles : JVal) :
    (∀ sk path, (sk, path) ∈ mappings →
      lookupJ (getInlineStyles styles) sk = (getPath styles path).map compileValueJ) ∧
    (∀ k, k ∉ mappings.map Prod.fst → lookupJ (getInlineStyles styles) k = none) := by
  have hnd : (mappings.map Prod.fst).Nodup := by decide
  constructor
  · intro sk path hmem
    rw [getInlineStyles, lookupJ_foldl_inlineStyleStep styles mappings .nil sk hnd]
    simp only [mappings, List.mem_cons, List.not_mem_nil, or_false, Prod.mk.injEq] at hmem
    rcases hmem with ⟨h1, h2⟩ | ⟨h1, h2⟩ | ⟨h1, h2⟩ | ⟨h1, h2⟩ | ⟨h1, h2⟩ | ⟨h1, h2⟩ <;>
      subst h1 <;> subst h2
    · rw [show mappings.find? (fun m => m.1 == "lineHeight") =
        some ("lineHeight", ["typography", "lineHeight"]) from rfl]
      cases hp : getPath styles ["typography", "lineHeight"] <;> simp [hp]
    · rw [show mappings.find? (fun m => m.1 == "fontSize") =
        some ("fontSize", ["typography", "fontSize"]) from rfl]
      cases hp : getPath styles ["typography", "fontSize"] <;> simp [hp]
    · rw [show mappings.find? (fun m => m.1 == "background") =
        some ("background", ["color", "gradient"]) from rfl]
      cases hp : getPath styles ["color", "gradient"] <;> simp [hp]
    · rw [show mappings.find? (fun m => m.1 == "backgroundColor") =
        some ("backgroundColor", ["color", "background"]) from rfl]
      cases hp : getPath styles ["color", "background"] <;> simp [hp]
    · rw [show mappings.find? (fun m => m.1 == "color") =
        some ("color", ["color", "text"]) from rfl]
      cases hp : getPath styles ["color", "text"] <;> simp [hp]
    · rw [show mappings.find? (fun m => m.1 == "--wp--color--link") =
        some ("--wp--color--link", ["color", "link"]) from rfl]
      cases hp : getPath styles ["color", "link"] <;> simp [hp]
  · intro k hk
    rw [getInlineStyles, lookupJ_foldl_inlineStyleStep styles mappings .nil k hnd]
    have hfind : mappings.find? (fun m => m.1 == k) = none := by
      rw [List.find?_eq_none]
      intro x hx
      simp only [beq_iff_eq]
      intro hxk
      exact hk (hxk ▸ List.mem_map_of_mem Prod.fst hx)
    rw [hfind]
    rfl

/-- Witness for C4: a layer defining only `typography.fontSize` produces a
`fontSize` entry carrying the compiled value, and no foreign key. -/
theorem getInlineStyles_spec_witness :
    (("fontSize", ["typography", "fontSize"]) ∈ mappings ∧
      lookupJ (getInlineStyles (nestedLayer "typography" "fontSize" "var:x|y")) "fontSize" =
        (getPath (nestedLayer "typography" "fontSize" "var:x|y")
          ["typography", "fontSize"]).map compileValueJ) ∧
    ("marginTop" ∉ mappings.map Prod.fst ∧
      lookupJ (getInlineStyles (nestedLayer "typography" "fontSize" "var:x|y"))
        "marginTop" = none) :=
  ⟨⟨by decide,
    (getInlineStyles_spec (nestedLayer "typography" "fontSize" "var:x|y")).1
      "fontSize" ["typography", "fontSize"] (by decide)⟩,
   ⟨by decide,
    (getInlineStyles_spec (nestedLayer "typography" "fontSize" "var:x|y")).2
      "marginTop" (by decide)⟩⟩

theorem overrideEntries_nil_right (a : JObj) : overrideEntries a .nil = a := by
  induction a using JObj.inductionOn with
  | nil => rfl
  | cons k v rest ih => simp [overrideEntries, lookupJ, ih]

theorem spreadPair_nil_right (a : JObj) : spreadPair a .nil = a := by
  rw [spreadPair, overrideEntries_nil_right]
  show appendJ a .nil = a
  exact appendJ_nil_right a

/-- Claim C10: without style support `addSaveProps` returns `props` entirely
unchanged; with style support, every key already present in the incoming
`props.style` wins over the entry `getInlineStyles` computes from the
block's `style` attribute (inline styles are spread first, then overwritten),
and keys absent from `props.style` fall back to the computed inline value. -/
theorem addSaveProps_spec (props : JObj) (blockType : BlockType) (attributes : JObj) :
    (hasStyleSupport blockType = false → addSaveProps props blockType attributes = props) ∧
    (∀ po, hasStyleSupport blockType = true → lookupJ props "style" = some (.obj po) →
      ∃ o, lookupJ (addSaveProps props blockType attributes) "style" = some (.obj o) ∧
        ∀ k, lookupJ o k =
          match lookupJ po k with
          | some v => some v
          | none =>
              lookupJ (getInlineStyles ((lookupJ attributes "style").getD (.obj .nil))) k) ∧
    (hasStyleSupport blockType = true → lookupJ props "style" = none →
      lookupJ (addSaveProps props blockType attributes) "style" =
        some (.obj (getInlineStyles ((lookupJ attributes "style").getD (.obj .nil))))) := by
  refine ⟨?_, ?_, ?_⟩
  · intro h
    simp [addSaveProps, h]
  · intro po hs hp
    refine ⟨spreadPair (getInlineStyles ((lookupJ attributes "style").getD (.obj .nil))) po,
      ?_, ?_⟩
    · simp [addSaveProps, hs, hp, lookupJ_setKeyJ]
    · intro k
      rw [lookupJ_spreadPair]
  · intro hs hp
    simp [addSaveProps, hs, hp, lookupJ_setKeyJ, spreadPair_nil_right]

/-- Witness for C10: a block type with color support, an incoming
`props.style` that already sets `color`, and a `style` attribute whose
`color.text` would also compile to a `color` entry: the incoming value wins. -/
theorem addSaveProps_spec_witness :
    hasStyleSupport ⟨["color"]⟩ = true ∧
    lookupJ (JObj.cons "style" (.obj (.cons "color" (.str "navy") .nil)) .nil) "style" =
      some (.obj (.cons "color" (.str "navy") .nil)) ∧
    ∃ o, lookupJ (addSaveProps
        (JObj.cons "style" (.obj (.cons "color" (.str "navy") .nil)) .nil) ⟨["color"]⟩
        (JObj.cons "style" (nestedLayer "color" "text" "red") .nil)) "style" =
          some (.obj o) ∧
      ∀ k, lookupJ o k =
        match lookupJ (JObj.cons "color" (.str "navy") .nil) k with
        | some v => some v
        | none =>
            lookupJ (getInlineStyles ((lookupJ
              (JObj.cons "style" (nestedLayer "color" "text" "red") .nil)
              "style").getD (.obj .nil))) k :=
  ⟨by decide, by decide,
    (addSaveProps_spec
      (JObj.cons "style" (.obj (.cons "color" (.str "navy") .nil)) .nil) ⟨["color"]⟩
      (JObj.cons "style" (nestedLayer "color" "text" "red") .nil)).2.1
      (JObj.cons "color" (.str "navy") .nil) (by decide) (by decide)⟩

/-- Claim C6: re-resolving an already-merged layer with an empty ancestor
context, an empty selector map and an empty global layer returns it
structurally unchanged. -/
theorem computeEffectiveStyle_idempotent (blockName : String) (attrs : Attrs) (v : JVal) :
    computeEffectiveStyle blockName attrs (some v) [] none = .ok v := by
  simp [computeEffectiveStyle, globalBlockSpecificStyles, List.foldlM, List.lookup,
    pure, Except.pure, mergeVal_nil_left]

/-- Claim C5: the deep merge drops no non-colliding keys: for a global layer
defining one leaf and a local layer defining a different leaf under the same
parent key, the effective style carries both leaves with their original
values. -/
theorem computeEffectiveStyle_deepMerge_disjoint (k a b va vb : String) (hab : a ≠ b) :
    ∃ m, computeEffectiveStyle "core/paragraph" [] (some (nestedLayer k b vb))
        [("global", ⟨nestedLayer k a va⟩)] none = .ok m ∧
      getPath m [k, a] = some (.str va) ∧ getPath m [k, b] = some (.str vb) := by
  have hba : ¬(b = a) := fun h => hab h.symm
  refine ⟨.obj (.cons k (.obj (.cons a (.str va) (.cons b (.str vb) .nil))) .nil), ?_, ?_, ?_⟩
  · simp [computeEffectiveStyle, globalBlockSpecificStyles, selectorStep, List.foldlM,
      List.lookup, strStartsWith, nestedLayer, mergeVal, mergeEntries, filterNewJ,
      appendJ, lookupJ, mergeVal_nil_left, hba, hab]
  · simp [getPath, lookupJ]
  · simp [getPath, lookupJ, hab, hba]

/-- Witness for C5 at the specification's example: global
`color.text = red`, local `color.background = white`. -/
theorem computeEffectiveStyle_deepMerge_disjoint_witness :
    ("text" : String) ≠ "background" ∧
    ∃ m, computeEffectiveStyle "core/paragraph" []
        (some (nestedLayer "color" "background" "white"))
        [("global", ⟨nestedLayer "color" "text" "red"⟩)] none = .ok m ∧
      getPath m ["color", "text"] = some (.str "red") ∧
      getPath m ["color", "background"] = some (.str "white") :=
  ⟨by decide,
    computeEffectiveStyle_deepMerge_disjoint "color" "text" "background" "red" "white"
      (by decide)⟩

/-- Claim C7: a selector-map entry contributes its styles exactly when its
selector equals the node's type identifier, or the selector extends the type
identifier and the predicate keyed by that selector in `selectorMapping`
accepts the node's attributes; in particular `core/heading/h2` (predicate
`level === 2`) matches a `core/heading` node with level 2 and not one with
level 3. -/
theorem selector_matching_spec :
    (∀ (blockName : String) (attrs : Attrs) (sel : String) (e : GlobalStyleEntry),
      sel = blockName →
      globalBlockSpecificStyles blockName attrs [(sel, e)] =
        .ok (mergeVal (JVal.obj .nil) e.styles)) ∧
    (∀ (blockName : String) (attrs : Attrs) (sel : String) (e : GlobalStyleEntry)
        (pred : Attrs → Bool),
      sel ≠ blockName → strStartsWith sel blockName = true →
      selectorMapping sel = some pred → pred attrs = true →
      globalBlockSpecificStyles blockName attrs [(sel, e)] =
        .ok (mergeVal (JVal.obj .nil) e.styles)) ∧
    (∀ (blockName : String) (attrs : Attrs) (sel : String) (e : GlobalStyleEntry)
        (pred : Attrs → Bool),
      sel ≠ blockName → strStartsWith sel blockName = true →
      selectorMapping sel = some pred → pred attrs = false →
      globalBlockSpecificStyles blockName attrs [(sel, e)] = .ok (JVal.obj .nil)) ∧
    (∀ (blockName : String) (attrs : Attrs) (sel : String) (e : GlobalStyleEntry),
      sel ≠ blockName → strStartsWith sel blockName = false →
      globalBlockSpecificStyles blockName attrs [(sel, e)] = .ok (JVal.obj .nil)) ∧
    (computeEffectiveStyle "core/heading" [("level", 2)] none
        [("core/heading/h2", ⟨colorTextLayer "green"⟩)] none =
      .ok (colorTextLayer "green")) ∧
    (computeEffectiveStyle "core/heading" [("level", 3)] none
        [("core/heading/h2", ⟨colorTextLayer "green"⟩)] none = .ok (JVal.obj .nil)) := by
  refine ⟨?_, ?_, ?_, ?_, by rfl, by rfl⟩
  · intro blockName attrs sel e h
    simp [globalBlockSpecificStyles, selectorStep, List.foldlM, h, pure, Except.pure]
  · intro blockName attrs sel e pred h1 h2 h3 h4
    simp [globalBlockSpecificStyles, selectorStep, List.foldlM, h1, h2, h3, h4,
      pure, Except.pure]
  · intro blockName attrs sel e pred h1 h2 h3 h4
    simp [globalBlockSpecificStyles, selectorStep, List.foldlM, h1, h2, h3, h4,
      pure, Except.pure]
  · intro blockName attrs sel e h1 h2
    simp [globalBlockSpecificStyles, selectorStep, List.foldlM, h1, h2, pure, Except.pure]

/-- Witness for C7: the predicate-match branch at the `core/heading/h2`
selector on a `core/heading` node with `level = 2`. -/
theorem selector_matching_spec_witness :
    ("core/heading/h2" : String) ≠ "core/heading" ∧
    strStartsWith "core/heading/h2" "core/heading" = true ∧
    levelIs 2 [("level", 2)] = true ∧
    globalBlockSpecificStyles "core/heading" [("level", 2)]
        [("core/heading/h2", ⟨colorTextLayer "green"⟩)] =
      .ok (mergeVal (JVal.obj .nil) (colorTextLayer "green")) :=
  ⟨by decide, by decide, by decide,
    selector_matching_spec.2.1 "core/heading" [("level", 2)] "core/heading/h2"
      ⟨colorTextLayer "green"⟩ (levelIs 2) (by decide) (by decide) (by rfl) (by decide)⟩

/-- Claim C1: when the local, type-specific, ancestor and global layers all
define a string value at one leaf path, the effective style carries the
local layer's value there; and the precedence chain is strict: type-specific
styles beat the ancestor context, which beats the global layer. -/
theorem computeEffectiveStyle_precedence :
    (∀ (blockName : String) (attrs : Attrs) (g ts anc loc : JVal) (p : List String)
        (vg vt va vl : String),
      strStartsWith "global" blockName = false →
      getPath g p = some (.str vg) → getPath ts p = some (.str vt) →
      getPath anc p = some (.str va) → getPath loc p = some (.str vl) →
      ∃ m, computeEffectiveStyle blockName attrs (some loc)
          [("global", ⟨g⟩), (blockName, ⟨ts⟩)] (some anc) = .ok m ∧
        getPath m p = some (.str vl)) ∧
    (∀ g a t : String,
      computeEffectiveStyle "core/paragraph" [] none
        [("global", ⟨colorTextLayer g⟩), ("core/paragraph", ⟨colorTextLayer t⟩)]
        (some (colorTextLayer a)) = .ok (colorTextLayer t)) ∧
    (∀ g a : String,
      computeEffectiveStyle "core/paragraph" [] none [("global", ⟨colorTextLayer g⟩)]
        (some (colorTextLayer a)) = .ok (colorTextLayer a)) ∧
    (∀ g : String,
      computeEffectiveStyle "core/paragraph" [] none [("global", ⟨colorTextLayer g⟩)]
        none = .ok (colorTextLayer g)) := by
  refine ⟨?_, fun g a t => by rfl, fun g a => by rfl, fun g => by rfl⟩
  intro blockName attrs g ts anc loc p vg vt va vl hng hg ht ha hl
  have hne : ¬("global" = blockName) := by
    intro h
    rw [← h, strStartsWith_self] at hng
    cases hng
  refine ⟨mergeVal (mergeVal (mergeVal (mergeVal (JVal.obj .nil) g) anc)
      (mergeVal (JVal.obj .nil) ts)) loc, ?_,
    getPath_mergeVal_right p _ loc vl hl⟩
  simp [computeEffectiveStyle, globalBlockSpecificStyles, selectorStep, List.foldlM,
    List.lookup, hne, hng, pure, Except.pure]

/-- Witness for C1 at the specification's four-colour example: the local
`purple` wins over `green`, `blue` and `red`. -/
theorem computeEffectiveStyle_precedence_witness :
    strStartsWith "global" "core/paragraph" = false ∧
    getPath (colorTextLayer "red") ["color", "text"] = some (.str "red") ∧
    getPath (colorTextLayer "green") ["color", "text"] = some (.str "green") ∧
    getPath (colorTextLayer "blue") ["color", "text"] = some (.str "blue") ∧
    getPath (colorTextLayer "purple") ["color", "text"] = some (.str "purple") ∧
    ∃ m, computeEffectiveStyle "core/paragraph" [] (some (colorTextLayer "purple"))
        [("global", ⟨colorTextLayer "red"⟩), ("core/paragraph", ⟨colorTextLayer "green"⟩)]
        (some (colorTextLayer "blue")) = .ok m ∧
      getPath m ["color", "text"] = some (.str "purple") :=
  ⟨by decide, by decide, by decide, by decide, by decide,
    computeEffectiveStyle_precedence.1 "core/paragraph" [] (colorTextLayer "red")
      (colorTextLayer "green") (colorTextLayer "blue") (colorTextLayer "purple")
      ["color", "text"] "red" "green" "blue" "purple"
      (by decide) (by decide) (by decide) (by decide) (by decide)⟩

/-- Claim C8 counterexample: a selector map carrying a key that strictly
extends the node's type identifier but has no predicate in
`selectorMapping` makes `computeEffectiveStyle` fail with the JavaScript
TypeError instead of yielding a merged layer. -/
theorem computeEffectiveStyle_missing_predicate_error :
    computeEffectiveStyle "core/heading" [] none
        [("core/heading/x", ⟨JVal.obj .nil⟩)] none =
      .error "TypeError: selectorMapping is not a function at the selector" := by
  rfl

/-- Claim C8 (amended): `computeEffectiveStyle` completes and yields a merged
layer for every node, global layer and ancestor context, provided every
selector key of the map that strictly extends the node's type identifier has
an associated predicate in `selectorMapping`. -/
theorem computeEffectiveStyle_total_amended (blockName : String) (attrs : Attrs)
    (localStyle : Option JVal) (gs : GlobalStylesMap) (ancestorContext : Option JVal)
    (h : ∀ e ∈ gs, e.1 ≠ blockName → strStartsWith e.1 blockName = true →
      (selectorMapping e.1).isSome) :
    ∃ m, computeEffectiveStyle blockName attrs localStyle gs ancestorContext = .ok m := by
  obtain ⟨o, ho⟩ := foldlM_selectorStep_ok blockName attrs gs (JVal.obj .nil) h
  refine ⟨mergeVal (mergeVal (mergeVal (mergeVal (JVal.obj .nil)
      (match gs.lookup "global" with
        | some entry => entry.styles
        | none => JVal.obj .nil))
      (ancestorContext.getD (JVal.obj .nil))) o) (localStyle.getD (JVal.obj .nil)), ?_⟩
  unfold computeEffectiveStyle
  rw [show globalBlockSpecificStyles blockName attrs gs = Except.ok o from ho]

/-- Witness for C8 (amended) on a map holding the root `global` entry and the
`core/heading/h2` variant entry, both of which have what they need. -/
theorem computeEffectiveStyle_total_amended_witness :
    (∀ e ∈ ([("global", (⟨JVal.obj .nil⟩ : GlobalStyleEntry)),
        ("core/heading/h2", ⟨colorTextLayer "green"⟩)] : GlobalStylesMap),
      e.1 ≠ "core/heading" → strStartsWith e.1 "core/heading" = true →
      (selectorMapping e.1).isSome) ∧
    ∃ m, computeEffectiveStyle "core/heading" [("level", 2)] none
        [("global", ⟨JVal.obj .nil⟩), ("core/heading/h2", ⟨colorTextLayer "green"⟩)]
        none = .ok m :=
  ⟨by decide,
    computeEffectiveStyle_total_amended "core/heading" [("level", 2)] none
      [("global", ⟨JVal.obj .nil⟩), ("core/heading/h2", ⟨colorTextLayer "green"⟩)]
      none (by decide)⟩
